import Mathlib

/-!
Shallow embedding of the TRA command engine (`src/commands.ts`, surfaced here
as `src/unnamed/part_001`, together with the registration call sites in
`src/db.ts` / `src/unnamed/part_002`).

JavaScript strings are modelled through their character lists (`String.data`);
all inputs of interest are ASCII, where JS UTF-16 code units and Lean
characters coincide.  JS regular-expression dot semantics (`.` does not match
a newline) is modelled where it is reachable; the greedy-separator
backtracking that a newline inside a separator run could trigger is not
modelled (no input considered contains newlines inside separator runs).
-/

namespace Tra

/-- JS `\s` on the ASCII inputs considered (space, tab, CR, LF). -/
def isJsWs (c : Char) : Bool := c.isWhitespace

/-- The character class `[:\s]` used by the registration parser. -/
def isColonWs (c : Char) : Bool := c == ':' || isJsWs c

/-- JS `String.prototype.startsWith`. -/
def strStartsWith (s p : String) : Bool := p.data.isPrefixOf s.data

/-- JS `String.prototype.endsWith`. -/
def strEndsWith (s p : String) : Bool := p.data.isSuffixOf s.data

/-- JS `s.slice(n)`. -/
def strDrop (s : String) (n : Nat) : String := String.mk (s.data.drop n)

/-- JS `s.slice(0, n)`. -/
def strTake (s : String) (n : Nat) : String := String.mk (s.data.take n)

/-- JS `s.length`. -/
def strLen (s : String) : Nat := s.data.length

/-- JS `String.prototype.trim`. -/
def strTrim (s : String) : String :=
  String.mk (((s.data.dropWhile isJsWs).reverse.dropWhile isJsWs).reverse)

/-- One argument specification of a command (`CommandArg` in the source,
inferred from `CommandArgSchema`). -/
structure CommandArg where
  argKey : String
  argKeyAlias : Option String := none
  required : Bool := false
  defaultValue : Option String := none
  description : Option String := none
deriving DecidableEq, Repr

/-- A registrable command (`CommandDef` in the source). -/
structure CommandDef where
  key : String
  description : Option String := none
  urlCall : String
  args : List CommandArg := []
deriving DecidableEq, Repr

/-! ### The store

`CommandManager` persists commands in a SQLite table with `key` as primary
key.  The table contents are modelled as a list of `CommandDef`s; the
`INSERT OR REPLACE` of `register` deletes any row with the same key and
inserts the new row. -/

/-- `INSERT OR REPLACE INTO commands` keyed by `key`. -/
def upsert (store : List CommandDef) (cmd : CommandDef) : List CommandDef :=
  (store.filter (fun c => !(c.key == cmd.key))) ++ [cmd]

/-- The duplicate key/alias scan at the top of `CommandManager.register`:
`seen` is the `keys` set accumulated so far.  The alias check is guarded by
JS truthiness (`if (arg.argKeyAlias)`), so an absent alias AND an
empty-string alias are both skipped: neither is checked nor added to the
set. -/
def checkArgKeys : List CommandArg → List String → Except String Unit
  | [], _ => .ok ()
  | a :: rest, seen =>
    if seen.contains a.argKey then .error ("Duplicate arg key: " ++ a.argKey)
    else
      match a.argKeyAlias with
      | some al =>
        if al == "" then checkArgKeys rest (a.argKey :: seen)
        else if (a.argKey :: seen).contains al then .error ("Duplicate arg alias: " ++ al)
        else checkArgKeys rest (al :: a.argKey :: seen)
      | none => checkArgKeys rest (a.argKey :: seen)

/-- `CommandManager.register`: reject duplicate arg keys/aliases, then
upsert into the store. -/
def register (store : List CommandDef) (cmd : CommandDef) : Except String (List CommandDef) :=
  match checkArgKeys cmd.args [] with
  | .error e => .error e
  | .ok _ => .ok (upsert store cmd)

/-- The combined sequence of all `argKey`s and all present `argKeyAlias`es
of an argument list, in scan order (the claim's "combined set of all argKey
and argKeyAlias strings", empty-string aliases included). -/
def combinedKeys (args : List CommandArg) : List String :=
  args.flatMap (fun a => a.argKey :: a.argKeyAlias.toList)

/-- The keys the duplicate scan actually checks and accumulates: every
`argKey`, plus every truthy (present and non-empty) `argKeyAlias`. -/
def checkedKeys (args : List CommandArg) : List String :=
  args.flatMap (fun a =>
    a.argKey :: (match a.argKeyAlias with
      | some al => if al == "" then [] else [al]
      | none => []))

/-! ### Command matcher (`CommandManager.findBestMatch`) -/

/-- Descending key length: the order produced by
`commands.sort((a, b) => b.key.length - a.key.length)`. -/
def keyLenGe (a b : CommandDef) : Prop := b.key.length ≤ a.key.length

instance : DecidableRel keyLenGe := fun _ _ => Nat.decLe _ _

instance : IsTrans CommandDef keyLenGe :=
  ⟨fun _ _ _ h1 h2 => Nat.le_trans h2 h1⟩

instance : IsTotal CommandDef keyLenGe :=
  ⟨fun a b => (Nat.le_total b.key.length a.key.length).elim Or.inl Or.inr⟩

/-- The per-command check inside `findBestMatch`: the input starts with the
key and the remainder is empty or starts with a space. -/
def boundaryMatch (key input : String) : Bool :=
  strStartsWith input key &&
    (let rest := strDrop input (strLen key)
     rest == "" || strStartsWith rest " ")

/-- `CommandManager.findBestMatch`: sort the stored commands by descending
key length (JS `Array.prototype.sort` is stable; a stable sort for a total
preorder is unique, so Mathlib's stable `insertionSort` models it), scan for
the first whitespace-bounded prefix, and return it with the trimmed
remainder. -/
def findBestMatch (commands : List CommandDef) (input : String) :
    Option (CommandDef × String) :=
  match (List.insertionSort keyLenGe commands).find? (fun c => boundaryMatch c.key input) with
  | some c => some (c, strTrim (strDrop input (strLen c.key)))
  | none => none

/-! ### Tokenizer (phase 1 of `parseArgs`) -/

/-- The character scan of `parseArgs` phase 1: `cur` is the current token
buffer (reversed), `inQ` the `inQuote` state. -/
def tokenizeAux : List Char → Bool → List Char → List String
  | [], _, cur => if cur.isEmpty then [] else [String.mk cur.reverse]
  | c :: rest, inQ, cur =>
    if c == '"' then tokenizeAux rest (!inQ) cur
    else if c == ' ' && !inQ then
      if cur.isEmpty then tokenizeAux rest inQ []
      else String.mk cur.reverse :: tokenizeAux rest inQ []
    else tokenizeAux rest inQ (c :: cur)

def tokenize (s : String) : List String := tokenizeAux s.data false []

/-! ### Argument resolver (phases 2 and 3 of `parseArgs`)

The JS object `parsedArgs` is modelled as an association list in insertion
order; assignment to an existing key overwrites in place. -/

/-- `parsedArgs[k] = v`. -/
def rinsert (r : List (String × String)) (k v : String) : List (String × String) :=
  if r.any (fun p => p.1 == k) then r.map (fun p => if p.1 == k then (k, v) else p)
  else r ++ [(k, v)]

/-- `k in parsedArgs` / `parsedArgs[k]` lookup. -/
def rfind (r : List (String × String)) (k : String) : Option String :=
  (r.find? (fun p => p.1 == k)).map (·.2)

/-- `token.replace(/^-+/, '')`. -/
def stripDashes (s : String) : String :=
  String.mk (s.data.dropWhile (fun c => c == '-'))

/-- The tail of `/^q.*q$/` (JS dot excludes newlines): all middle characters
are not CR/LF and the final character is the quote. -/
def quoteTail (q : Char) : List Char → Bool
  | [] => false
  | [c] => c == q
  | c :: rest => !(c == '\n') && !(c == '\r') && quoteTail q rest

/-- `value.match(/^q.*q$/)` for a quote character `q`. -/
def fullyQuoted (q : Char) (s : String) : Bool :=
  match s.data with
  | [] => false
  | c :: rest => c == q && quoteTail q rest

/-- The next-token test of `parseArgs`: starts with `-` and is not fully
wrapped in double or single quotes. -/
def flagLike (v : String) : Bool :=
  strStartsWith v "-" && !(fullyQuoted '"' v) && !(fullyQuoted '\'' v)

/-- The element predicate of `commandArgs.find(...)` in `parseArgs`. -/
def specPred (isLong : Bool) (raw : String) (a : CommandArg) : Bool :=
  (isLong && a.argKey == raw) || (!isLong && a.argKeyAlias == some raw) || (a.argKey == raw)

/-- Resolve a flag token against the argument specs
(`commandArgs.find(...)`). -/
def findSpec (specs : List CommandArg) (tok : String) : Option CommandArg :=
  specs.find? (specPred (strStartsWith tok "--") (stripDashes tok))

/-- The token-consuming loop of `parseArgs` (phase 2). -/
def parseTokens (specs : List CommandArg) :
    List String → List (String × String) → Except String (List (String × String))
  | [], acc => .ok acc
  | tok :: rest, acc =>
    if strStartsWith tok "-" then
      match findSpec specs tok with
      | none => .error ("Unknown argument: " ++ tok)
      | some argDef =>
        match rest with
        | [] =>
          match argDef.defaultValue with
          | some d => parseTokens specs [] (rinsert acc argDef.argKey d)
          | none => .error ("Argument " ++ tok ++ " requires a value.")
        | v :: rest2 =>
          if flagLike v then
            match argDef.defaultValue with
            | some d => parseTokens specs (v :: rest2) (rinsert acc argDef.argKey d)
            | none => .error ("Argument " ++ tok ++ " requires a value.")
          else
            parseTokens specs rest2 (rinsert acc argDef.argKey v)
    else .error ("Unexpected positional argument: " ++ tok)

/-- Phase 3 of `parseArgs`: fill defaults and check required arguments. -/
def fillDefaults : List CommandArg → List (String × String) →
    Except String (List (String × String))
  | [], acc => .ok acc
  | a :: rest, acc =>
    if (rfind acc a.argKey).isSome then fillDefaults rest acc
    else
      match a.defaultValue with
      | some d => fillDefaults rest (rinsert acc a.argKey d)
      | none =>
        if a.required then .error ("Missing required argument: --" ++ a.argKey)
        else fillDefaults rest acc

/-- Phases 2 and 3 applied to an explicit token sequence. -/
def resolveTokens (tokens : List String) (specs : List CommandArg) :
    Except String (List (String × String)) :=
  (parseTokens specs tokens []).bind (fillDefaults specs)

/-- `parseArgs`. -/
def parseArgs (argsString : String) (commandArgs : List CommandArg) :
    Except String (List (String × String)) :=
  resolveTokens (tokenize argsString) commandArgs

/-! ### Registration-text parser (`parseRegistrationInput`) -/

/-- The `input.search` call: index of the first occurrence of `--` or `[`. -/
def searchMarkerAux : List Char → Nat → Option Nat
  | [], _ => none
  | '-' :: '-' :: _, i => some i
  | '[' :: _, i => some i
  | _ :: rest, i => searchMarkerAux rest (i + 1)

def searchMarker (s : String) : Option Nat := searchMarkerAux s.data 0

/-- Case-insensitive character comparison (the regexes carry the `i` flag). -/
def charCI (a b : Char) : Bool := a.toLower == b.toLower

/-- Match a literal pattern case-insensitively at the head, returning the
remainder on success. -/
def matchCI : List Char → List Char → Option (List Char)
  | [], cs => some cs
  | _ :: _, [] => none
  | p :: ps, c :: cs => if charCI p c then matchCI ps cs else none

/-- The lookahead `(?=\s+--|\s*\[|$)` of `extractFlag`'s regex. -/
def lookaheadOk (ts : List Char) : Bool :=
  ts.isEmpty ||
    (let r := ts.dropWhile isJsWs
     (!(ts.takeWhile isJsWs).isEmpty && ['-', '-'].isPrefixOf r) || ['['].isPrefixOf r)

/-- The lazy capture `(.*?)` before the lookahead: the shortest prefix after
which the lookahead holds.  JS `.` does not match CR/LF, so reaching one
before the lookahead holds fails the match at this position. -/
def lazyCapture (cs : List Char) : Option (List Char) :=
  if lookaheadOk cs then some []
  else
    match cs with
    | [] => none
    | c :: rest =>
      if c == '\n' || c == '\r' then none
      else (lazyCapture rest).map (fun t => c :: t)

/-- Attempt `extractFlag`'s regex at the current position: `--` then the flag
name (case-insensitively), then one or more `[:\s]` characters (taken
greedily), then the lazy capture. -/
def tryFlagAt (name cs : List Char) : Option (List Char) :=
  match matchCI ('-' :: '-' :: name) cs with
  | none => none
  | some rest =>
    let sep := rest.takeWhile isColonWs
    if sep.isEmpty then none else lazyCapture (rest.drop sep.length)

/-- Scan left to right for the first position where the regex matches. -/
def extractFlagAux (name : List Char) : List Char → Option String
  | [] => none
  | c :: rest =>
    match tryFlagAt name (c :: rest) with
    | some cap => some (strTrim (String.mk cap))
    | none => extractFlagAux name rest

/-- The `extractFlag` closure of `parseRegistrationInput`: first match of
`--name[:\s]+(.*?)(?=\s+--|\s*\[|$)` (case-insensitive), trimmed. -/
def extractFlag (name source : String) : Option String :=
  extractFlagAux name.data source.data

mutual
/-- All matches of the global regex `\[(.*?)\]`: each `[` pairs with the next
`]`; an unclosed `[` matches nothing (and no later `[` can close either).
Scanning outside a bracket. -/
def bracketBlocks : List Char → List String
  | [] => []
  | '[' :: rest => bracketBlocksIn rest []
  | _ :: rest => bracketBlocks rest

/-- Scanning inside a bracket, accumulating the content (reversed). -/
def bracketBlocksIn : List Char → List Char → List String
  | [], _ => []
  | ']' :: rest, cur => String.mk cur.reverse :: bracketBlocks rest
  | c :: rest, cur => bracketBlocksIn rest (c :: cur)
end

/-- JS `parts.join(' ')`. -/
def joinSpaceAux : List String → List Char
  | [] => []
  | [s] => s.data
  | s :: rest => s.data ++ ' ' :: joinSpaceAux rest

def joinSpace (l : List String) : String := String.mk (joinSpaceAux l)

mutual
/-- JS `part.split(/[:\s]+/)`: inside a segment. -/
def splitClassGo : List Char → List Char → List String
  | [], cur => [String.mk cur.reverse]
  | c :: rest, cur =>
    if isColonWs c then String.mk cur.reverse :: splitClassSkip rest
    else splitClassGo rest (c :: cur)

/-- JS `part.split(/[:\s]+/)`: inside a separator run. -/
def splitClassSkip : List Char → List String
  | [] => [""]
  | c :: rest => if isColonWs c then splitClassSkip rest else splitClassGo rest [c]
end

/-- JS `part.split(/[:\s]+/)`. -/
def splitColonWs (s : String) : List String := splitClassGo s.data []

/-- JS `text.split('--')`. -/
def splitDashDashAux : List Char → List Char → List String
  | [], cur => [String.mk cur.reverse]
  | '-' :: '-' :: rest, cur => String.mk cur.reverse :: splitDashDashAux rest []
  | c :: rest, cur => splitDashDashAux rest (c :: cur)

def splitDashDash (s : String) : List String := splitDashDashAux s.data []

/-- The mutable `obj` assembled by `parseInner`. -/
structure InnerObj where
  argKey : Option String := none
  argKeyAlias : Option String := none
  required : Option Bool := none
  defaultValue : Option String := none
  description : Option String := none
deriving DecidableEq, Repr

/-- One iteration of `parseInner`'s loop over the `--`-split parts. -/
def applyPart (o : InnerObj) (part : String) : InnerObj :=
  match splitColonWs part with
  | [] => o
  | k :: vParts =>
    let v0 := strTrim (joinSpace vParts)
    let v := if strEndsWith v0 "," then String.mk v0.data.dropLast else v0
    let o := if k == "argKey" then { o with argKey := some v } else o
    let o := if k == "argKeyAlias" then { o with argKeyAlias := some v } else o
    let o := if k == "required" then { o with required := some (v == "true") } else o
    let o := if k == "defaultValue" then { o with defaultValue := some v } else o
    if k == "description" then { o with description := some v } else o

/-- `parseInner`: split the block content on `--`, drop blank parts, fold the
recognized flags into an object. -/
def parseInner (text : String) : InnerObj :=
  ((splitDashDash text).filter (fun p => !(strTrim p == ""))).foldl applyPart {}

/-- `CommandArgSchema.parse` on `parseInner`'s object: `argKey` must be
present (a string), `required` defaults to `false`, the rest is optional. -/
def commandArgSchemaParse (o : InnerObj) : Except String CommandArg :=
  match o.argKey with
  | none => .error "Invalid argument definition block: argKey is required"
  | some k =>
    .ok { argKey := k, argKeyAlias := o.argKeyAlias, required := o.required.getD false,
          defaultValue := o.defaultValue, description := o.description }

/-- `parseRegistrationInput`. -/
def parseRegistrationInput (input : String) : Except String CommandDef :=
  match searchMarker input with
  | none => .error "Missing description, urlCall or args definition."
  | some idx =>
    let keyRaw := strTrim (strTake input idx)
    if keyRaw == "" then .error "Missing command key."
    else
      let rest := strDrop input idx
      let description := extractFlag "description" rest
      match extractFlag "urlCall" rest with
      | none => .error "Missing --urlCall"
      | some urlCall =>
        if urlCall == "" then .error "Missing --urlCall"
        else
          ((bracketBlocks rest.data).mapM (fun b => commandArgSchemaParse (parseInner b))).map
            (fun args => { key := keyRaw, description := description, urlCall := urlCall,
                           args := args })

/-! ### Registration entry points

The chat path (`handleMessage` in `src/wa.ts`, surfaced in `src/db.ts`'s
file) parses the free text with `parseRegistrationInput` and calls
`CommandManager.register` directly.  The dashboard form path
(`/api/commands/save` in `src/server.ts`) validates the submitted object
against `RegisterCommandSchema` first. -/

/-- Modelled from the spec: `RegisterCommandSchema` requires `urlCall` to be
"a syntactically valid absolute URL" via zod's `z.string().url()` (library
code not in `src/`).  We model the defining necessary condition that an
absolute URL begins with a scheme — an ASCII letter followed by
letters/digits/`+`/`-`/`.` — terminated by a colon. -/
def schemeRest : List Char → Bool
  | [] => false
  | ':' :: _ => true
  | c :: rest => (c.isAlphanum || c == '+' || c == '-' || c == '.') && schemeRest rest

/-- Modelled from the spec: syntactic validity of an absolute URL (see
`schemeRest`). -/
def isValidAbsoluteUrl (s : String) : Bool :=
  match s.data with
  | [] => false
  | c :: rest => c.isAlpha && schemeRest rest

/-- `RegisterCommandSchema.parse` on a structurally well-typed command
object: `key` must be non-empty (`min(1)`), `urlCall` must be a valid URL. -/
def registerCommandSchemaParse (c : CommandDef) : Except String CommandDef :=
  if c.key == "" then .error "String must contain at least 1 character(s)"
  else if isValidAbsoluteUrl c.urlCall then .ok c
  else .error "Invalid url"

/-- The chat registration entry point: `parseRegistrationInput` then
`CommandManager.register` (no schema validation in between). -/
def chatRegisterPath (store : List CommandDef) (input : String) :
    Except String (List CommandDef) :=
  (parseRegistrationInput input).bind (fun cmd => register store cmd)

/-- The dashboard form entry point (`/api/commands/save`, with no rename):
`RegisterCommandSchema.parse` then `CommandManager.register`. -/
def formSavePath (store : List CommandDef) (cmd : CommandDef) :
    Except String (List CommandDef) :=
  (registerCommandSchemaParse cmd).bind (fun c => register store c)

/-! ### Concrete fixtures used in the examples below -/

def trigCmd : CommandDef := { key := "trigger", urlCall := "https://e.test/a" }

def trigDepCmd : CommandDef := { key := "trigger deployment", urlCall := "https://e.test/b" }

def trigShortCmd : CommandDef := { key := "trig", urlCall := "https://e.test/c" }

def dupKeyCmd : CommandDef :=
  { key := "c", urlCall := "https://e.test/d",
    args := [{ argKey := "x" }, { argKey := "x" }] }

def dupAliasCmd : CommandDef :=
  { key := "c", urlCall := "https://e.test/d",
    args := [{ argKey := "x" }, { argKey := "y", argKeyAlias := some "x" }] }

def trigNewCmd : CommandDef := { key := "trigger", urlCall := "https://e.test/new" }

/-- Two arguments that both carry the empty-string alias — the state the
dashboard form submits for an argument whose alias field is left blank, and
the state `parseInner` produces for a bare `--argKeyAlias:` flag. -/
def emptyAliasCmd : CommandDef :=
  { key := "e", urlCall := "https://e.test/e",
    args := [{ argKey := "x", argKeyAlias := some "" },
             { argKey := "y", argKeyAlias := some "" }] }

/-! ## Helper lemmas -/

lemma mk_eq_empty_iff (l : List Char) : String.mk l = "" ↔ l = [] := by
  rw [String.ext_iff]

/-- Every token the tokenizer emits is a non-empty string. -/
lemma tokenizeAux_ne_empty :
    ∀ (cs : List Char) (inQ : Bool) (cur : List Char),
      ∀ t ∈ tokenizeAux cs inQ cur, t ≠ "" := by
  intro cs
  induction cs with
  | nil =>
    intro inQ cur t ht
    by_cases h : cur.isEmpty
    · simp [tokenizeAux, h] at ht
    · simp [tokenizeAux, h] at ht
      subst ht
      rw [Ne, mk_eq_empty_iff, List.reverse_eq_nil_iff]
      simpa [List.isEmpty_iff] using h
  | cons c rest ih =>
    intro inQ cur t ht
    rw [tokenizeAux] at ht
    by_cases h1 : c == '"'
    · simp only [h1, if_true] at ht
      exact ih _ _ t ht
    · simp only [h1, Bool.false_eq_true, if_false] at ht
      by_cases h2 : c == ' ' && !inQ
      · simp only [h2, if_true] at ht
        by_cases h3 : cur.isEmpty
        · simp only [h3, if_true] at ht
          exact ih _ _ t ht
        · simp only [h3, Bool.false_eq_true, if_false, List.mem_cons] at ht
          rcases ht with rfl | ht
          · rw [Ne, mk_eq_empty_iff, List.reverse_eq_nil_iff]
            simpa [List.isEmpty_iff] using h3
          · exact ih _ _ t ht
      · simp only [h2, Bool.false_eq_true, if_false] at ht
        exact ih _ _ t ht

/-- The tokenizer never includes a double quote in an emitted token. -/
lemma tokenizeAux_no_quote :
    ∀ (cs : List Char) (inQ : Bool) (cur : List Char), '"' ∉ cur →
      ∀ t ∈ tokenizeAux cs inQ cur, '"' ∉ t.data := by
  intro cs
  induction cs with
  | nil =>
    intro inQ cur hcur t ht
    by_cases h : cur.isEmpty
    · simp [tokenizeAux, h] at ht
    · simp [tokenizeAux, h] at ht
      subst ht
      simpa using hcur
  | cons c rest ih =>
    intro inQ cur hcur t ht
    rw [tokenizeAux] at ht
    by_cases h1 : c == '"'
    · simp only [h1, if_true] at ht
      exact ih _ _ hcur t ht
    · simp only [h1, Bool.false_eq_true, if_false] at ht
      by_cases h2 : c == ' ' && !inQ
      · simp only [h2, if_true] at ht
        by_cases h3 : cur.isEmpty
        · simp only [h3, if_true] at ht
          exact ih _ _ (by simp) t ht
        · simp only [h3, Bool.false_eq_true, if_false, List.mem_cons] at ht
          rcases ht with rfl | ht
          · simpa using hcur
          · exact ih _ _ (by simp) t ht
      · simp only [h2, Bool.false_eq_true, if_false] at ht
        refine ih _ _ ?_ t ht
        intro hmem
        rcases List.mem_cons.mp hmem with heq | hmem
        · rw [← heq] at h1; simp at h1
        · exact hcur hmem

/-- `parsedArgs[k] = v` only adds the pair `(k, v)` or keeps existing pairs. -/
lemma mem_rinsert {r : List (String × String)} {k v : String} :
    ∀ p ∈ rinsert r k v, p = (k, v) ∨ p ∈ r := by
  intro p hp
  unfold rinsert at hp
  split at hp
  · rcases List.mem_map.mp hp with ⟨q, hq, hfq⟩
    by_cases h : q.1 == k
    · left; rw [← hfq]; simp [h]
    · right; rw [← hfq]; simpa [h] using hq
  · rcases List.mem_append.mp hp with h | h
    · right; exact h
    · left; simpa using h

/-- Values assigned by the token loop come from the token sequence, from the
defaults of the specs, or from the initial record. -/
lemma parseTokens_values (specs : List CommandArg)
    (hspecs : ∀ a ∈ specs, ∀ d, a.defaultValue = some d → d ≠ "") :
    ∀ ts acc, (∀ t ∈ ts, t ≠ "") → (∀ p ∈ acc, p.2 ≠ "") →
      ∀ res, parseTokens specs ts acc = .ok res → ∀ p ∈ res, p.2 ≠ "" := by
  intro ts acc
  induction ts, acc using Tra.parseTokens.induct specs with
  | case1 acc =>
    intro _ hacc res hres
    rw [parseTokens] at hres
    cases hres
    exact hacc
  | case2 tok rest acc hstart hfind =>
    intro _ _ res hres
    simp [parseTokens, hstart, hfind] at hres
  | case3 tok acc hstart argDef hfind d hd ih =>
    intro hts hacc res hres
    rw [parseTokens] at hres
    simp only [hstart, if_true, hfind, hd] at hres
    refine ih (by simp) ?_ res hres
    intro p hp
    rcases mem_rinsert p hp with rfl | hp
    · exact hspecs argDef (List.mem_of_find?_eq_some hfind) d hd
    · exact hacc p hp
  | case4 tok acc hstart argDef hfind hd =>
    intro _ _ res hres
    rw [parseTokens] at hres
    simp [hstart, hfind, hd] at hres
  | case5 tok acc hstart argDef hfind v rest2 hflag d hd ih =>
    intro hts hacc res hres
    rw [parseTokens] at hres
    simp only [hstart, if_true, hfind, hflag, hd] at hres
    refine ih (fun t ht => hts t (List.mem_cons_of_mem _ ht)) ?_ res hres
    intro p hp
    rcases mem_rinsert p hp with rfl | hp
    · exact hspecs argDef (List.mem_of_find?_eq_some hfind) d hd
    · exact hacc p hp
  | case6 tok acc hstart argDef hfind v rest2 hflag hd =>
    intro _ _ res hres
    rw [parseTokens] at hres
    simp [hstart, hfind, hflag, hd] at hres
  | case7 tok acc hstart argDef hfind v rest2 hflag ih =>
    intro hts hacc res hres
    rw [parseTokens] at hres
    simp only [hstart, if_true, hfind, Bool.not_eq_true] at hres
    rw [if_neg (by simp [Bool.not_eq_true] at hflag ⊢; exact hflag)] at hres
    refine ih (fun t ht => hts t (List.mem_cons_of_mem _ (List.mem_cons_of_mem _ ht))) ?_ res hres
    intro p hp
    rcases mem_rinsert p hp with rfl | hp
    · exact hts v (List.mem_cons_of_mem _ (List.mem_cons_self _ _))
    · exact hacc p hp
  | case8 tok rest acc hstart =>
    intro _ _ res hres
    rw [parseTokens] at hres
    rw [if_neg hstart] at hres
    cases hres

/-- The defaults phase only adds default values or keeps existing pairs. -/
lemma fillDefaults_values :
    ∀ (specs : List CommandArg) acc,
      (∀ a ∈ specs, ∀ d, a.defaultValue = some d → d ≠ "") → (∀ p ∈ acc, p.2 ≠ "") →
      ∀ res, fillDefaults specs acc = .ok res → ∀ p ∈ res, p.2 ≠ "" := by
  intro specs
  induction specs with
  | nil =>
    intro acc _ hacc res h
    rw [fillDefaults] at h
    cases h
    exact hacc
  | cons a rest ih =>
    intro acc hs hacc res h
    rw [fillDefaults] at h
    by_cases h1 : (rfind acc a.argKey).isSome
    · rw [if_pos h1] at h
      exact ih acc (fun b hb => hs b (List.mem_cons_of_mem _ hb)) hacc res h
    · rw [if_neg h1] at h
      cases hd : a.defaultValue with
      | some d =>
        rw [hd] at h
        refine ih _ (fun b hb => hs b (List.mem_cons_of_mem _ hb)) ?_ res h
        intro p hp
        rcases mem_rinsert p hp with rfl | hp
        · exact hs a (List.mem_cons_self _ _) d hd
        · exact hacc p hp
      | none =>
        rw [hd] at h
        by_cases h2 : a.required
        · rw [if_pos h2] at h; cases h
        · rw [if_neg h2] at h
          exact ih acc (fun b hb => hs b (List.mem_cons_of_mem _ hb)) hacc res h

/-- Inserting a key makes it present with the given value. -/
lemma rfind_map_update (r : List (String × String)) (k v : String)
    (h : r.any (fun p => p.1 == k) = true) :
    rfind (r.map (fun p => if p.1 == k then (k, v) else p)) k = some v := by
  induction r with
  | nil => simp at h
  | cons q t ih =>
    rw [List.map_cons]
    by_cases hq : q.1 == k
    · rw [if_pos hq]
      unfold rfind
      simp [List.find?_cons]
    · rw [if_neg hq]
      unfold rfind at ih ⊢
      simp only [List.find?_cons, hq]
      refine ih ?_
      rw [List.any_cons] at h
      simpa [hq] using h

lemma rfind_append_new (r : List (String × String)) (k v : String)
    (h : r.any (fun p => p.1 == k) = false) :
    rfind (r ++ [(k, v)]) k = some v := by
  unfold rfind
  rw [List.find?_append]
  have hn : r.find? (fun p => p.1 == k) = none := by
    rw [List.find?_eq_none]
    intro x hx hpx
    have htrue : r.any (fun p => p.1 == k) = true := List.any_eq_true.mpr ⟨x, hx, hpx⟩
    rw [htrue] at h
    cases h
  rw [hn]
  simp [Option.or]

lemma rfind_rinsert_self (r : List (String × String)) (k v : String) :
    rfind (rinsert r k v) k = some v := by
  unfold rinsert
  by_cases h : r.any (fun p => p.1 == k)
  · rw [if_pos h]; exact rfind_map_update r k v h
  · rw [if_neg h]; exact rfind_append_new r k v (Bool.eq_false_iff.mpr h)

lemma rfind_rinsert_other (r : List (String × String)) (k v k' : String) (h : k' ≠ k) :
    rfind (rinsert r k v) k' = rfind r k' := by
  have hbeq : (k == k') = false := by
    rw [beq_eq_false_iff_ne]
    exact fun hk => h hk.symm
  unfold rinsert
  split
  · rename_i hany
    clear hany
    induction r with
    | nil => rfl
    | cons q t ih =>
      rw [List.map_cons]
      unfold rfind at ih ⊢
      by_cases hq : q.1 == k
      · rw [if_pos hq]
        have hq1 : (q.1 == k') = false := by
          rw [eq_of_beq hq]; exact hbeq
        simp only [List.find?_cons, hbeq, hq1]
        exact ih
      · rw [if_neg hq]
        by_cases hq' : q.1 == k'
        · simp [List.find?_cons, hq']
        · simp only [List.find?_cons, hq']
          exact ih
  · unfold rfind
    rw [List.find?_append]
    have : List.find? (fun p => p.1 == k') [(k, v)] = none := by
      simp [List.find?_cons, hbeq]
    rw [this, Option.or_none]

/-- The defaults phase never removes a present key. -/
lemma fillDefaults_preserves :
    ∀ (specs : List CommandArg) acc res k, fillDefaults specs acc = .ok res →
      (rfind acc k).isSome = true → (rfind res k).isSome = true := by
  intro specs
  induction specs with
  | nil =>
    intro acc res k h hk
    rw [fillDefaults] at h
    cases h
    exact hk
  | cons a rest ih =>
    intro acc res k h hk
    rw [fillDefaults] at h
    by_cases h1 : (rfind acc a.argKey).isSome
    · rw [if_pos h1] at h; exact ih acc res k h hk
    · rw [if_neg h1] at h
      cases hd : a.defaultValue with
      | some d =>
        rw [hd] at h
        refine ih _ res k h ?_
        by_cases hkk : k = a.argKey
        · subst hkk; rw [rfind_rinsert_self]; rfl
        · rw [rfind_rinsert_other _ _ _ _ hkk]; exact hk
      | none =>
        rw [hd] at h
        by_cases h2 : a.required
        · rw [if_pos h2] at h; cases h
        · rw [if_neg h2] at h; exact ih acc res k h hk

/-- After a successful defaults phase, every spec with a default or marked
required is present in the result. -/
lemma fillDefaults_present :
    ∀ (specs : List CommandArg) acc res, fillDefaults specs acc = .ok res →
      ∀ a ∈ specs, (a.defaultValue.isSome = true ∨ a.required = true) →
      (rfind res a.argKey).isSome = true := by
  intro specs
  induction specs with
  | nil => intro acc res _ a ha; simp at ha
  | cons b rest ih =>
    intro acc res h a ha hcond
    rw [fillDefaults] at h
    rcases List.mem_cons.mp ha with rfl | ha
    · by_cases h1 : (rfind acc a.argKey).isSome
      · rw [if_pos h1] at h
        exact fillDefaults_preserves rest acc res a.argKey h h1
      · rw [if_neg h1] at h
        cases hd : a.defaultValue with
        | some d =>
          rw [hd] at h
          refine fillDefaults_preserves rest _ res a.argKey h ?_
          rw [rfind_rinsert_self]; rfl
        | none =>
          rcases hcond with hds | hreq
          · rw [hd] at hds; cases hds
          · rw [hd, if_pos hreq] at h; cases h
    · by_cases h1 : (rfind acc b.argKey).isSome
      · rw [if_pos h1] at h; exact ih acc res h a ha hcond
      · rw [if_neg h1] at h
        cases hd : b.defaultValue with
        | some d => rw [hd] at h; exact ih _ res h a ha hcond
        | none =>
          rw [hd] at h
          by_cases h2 : b.required
          · rw [if_pos h2] at h; cases h
          · rw [if_neg h2] at h; exact ih acc res h a ha hcond

/-! ## Claim theorems -/

/-- C7: the tokenizer scans character by character, double quotes toggle the
quoted state without being emitted (no emitted token contains a `"`), spaces
outside quotes delimit tokens, a non-empty buffer is flushed at end of
input; empty input yields no tokens and unbalanced quotes are not rejected
(the remainder continues the quoted span). -/
theorem C7_tokenizer :
    tokenize "a \"b c\" d" = ["a", "b c", "d"]
    ∧ tokenize "" = []
    ∧ tokenize "--id 123" = ["--id", "123"]
    ∧ tokenize "a \"bc" = ["a", "bc"]
    ∧ tokenize "\"a b" = ["a b"]
    ∧ (∀ s : String, ∀ t ∈ tokenize s, '"' ∉ t.data) :=
  ⟨rfl, rfl, rfl, rfl, rfl, fun s => tokenizeAux_no_quote s.data false [] (by simp)⟩

theorem C7_tokenizer_witness : '"' ∉ ("b c" : String).data :=
  C7_tokenizer.2.2.2.2.2 "a \"b c\" d" "b c" (by decide)

/-- C10: every emitted token is non-empty; a quoted empty string is dropped
entirely, so a flag followed only by `""` resolves to its default (or fails
with the requires-a-value error), and no argument is ever assigned the empty
string as its value from user input (provided no spec carries an empty
default, the only other source of values). -/
theorem C10_no_empty_tokens :
    (∀ s : String, ∀ t ∈ tokenize s, t ≠ "")
    ∧ tokenize "\"\"" = []
    ∧ parseArgs "--a \"\"" [{ argKey := "a", defaultValue := some "X" }] = .ok [("a", "X")]
    ∧ parseArgs "--b \"\"" [{ argKey := "b" }] = .error "Argument --b requires a value."
    ∧ (∀ (s : String) (specs : List CommandArg) res,
        (∀ a ∈ specs, a.defaultValue ≠ some "") →
        parseArgs s specs = .ok res → ∀ p ∈ res, p.2 ≠ "") := by
  refine ⟨fun s => tokenizeAux_ne_empty s.data false [], rfl, rfl, rfl, ?_⟩
  intro s specs res hdef hok p hp
  have hdef' : ∀ a ∈ specs, ∀ d, a.defaultValue = some d → d ≠ "" :=
    fun a ha d hd hde => hdef a ha (by rw [hd, hde])
  unfold parseArgs resolveTokens at hok
  cases hmid : parseTokens specs (tokenize s) [] with
  | error e => rw [hmid] at hok; cases hok
  | ok mid =>
    rw [hmid] at hok
    simp only [Except.bind] at hok
    have hmidvals : ∀ q ∈ mid, q.2 ≠ "" :=
      parseTokens_values specs hdef' (tokenize s) []
        (fun t ht => tokenizeAux_ne_empty s.data false [] t ht) (by simp) mid hmid
    exact fillDefaults_values specs mid hdef' hmidvals res hok p hp

theorem C10_no_empty_tokens_witness : ¬(("a", "X") : String × String).2 = "" :=
  C10_no_empty_tokens.2.2.2.2 "--a \"\"" [{ argKey := "a", defaultValue := some "X" }]
    [("a", "X")] (by decide) rfl ("a", "X") (by decide)

/-- C1 counterexample: at tokens `["--b"]` against the spec
`{key := "b"}` (no default) there is no next token, so the claim's first
branch predicts the flag is resolved with a value (and in particular no
requires-a-value failure, which the claim reserves for a next token that
looks like a flag); the code instead fails with exactly that error. -/
theorem C1_counterexample :
    resolveTokens ["--b"] [{ argKey := "b" }] =
      .error "Argument --b requires a value." := rfl

/-- C1 (amended): after a flag token is matched to a spec, a PRESENT next
token that does not start with `-` or is fully quote-wrapped is taken as the
value (two tokens consumed); otherwise — the next token looks like a flag,
OR there is no next token — the spec's `defaultValue` is assigned when
present (one token consumed) and resolution fails with the
requires-a-value error when absent.  The `["--a", "--b", "1"]` example
resolves to `{a: "X", b: "1"}`. -/
theorem C1_value_vs_flag :
    (∀ v, flagLike v = false ↔
      (strStartsWith v "-" = false ∨ fullyQuoted '"' v = true ∨ fullyQuoted '\'' v = true))
    ∧ (∀ specs tok v rest2 acc argDef, strStartsWith tok "-" = true →
        findSpec specs tok = some argDef → flagLike v = false →
        parseTokens specs (tok :: v :: rest2) acc =
          parseTokens specs rest2 (rinsert acc argDef.argKey v))
    ∧ (∀ specs tok v rest2 acc argDef d, strStartsWith tok "-" = true →
        findSpec specs tok = some argDef → flagLike v = true → argDef.defaultValue = some d →
        parseTokens specs (tok :: v :: rest2) acc =
          parseTokens specs (v :: rest2) (rinsert acc argDef.argKey d))
    ∧ (∀ specs tok v rest2 acc argDef, strStartsWith tok "-" = true →
        findSpec specs tok = some argDef → flagLike v = true → argDef.defaultValue = none →
        parseTokens specs (tok :: v :: rest2) acc =
          .error ("Argument " ++ tok ++ " requires a value."))
    ∧ (∀ specs tok acc argDef d, strStartsWith tok "-" = true →
        findSpec specs tok = some argDef → argDef.defaultValue = some d →
        parseTokens specs [tok] acc = .ok (rinsert acc argDef.argKey d))
    ∧ (∀ specs tok acc argDef, strStartsWith tok "-" = true →
        findSpec specs tok = some argDef → argDef.defaultValue = none →
        parseTokens specs [tok] acc = .error ("Argument " ++ tok ++ " requires a value."))
    ∧ resolveTokens ["--a", "--b", "1"]
        [{ argKey := "a", defaultValue := some "X" }, { argKey := "b" }] =
        .ok [("a", "X"), ("b", "1")] := by
  refine ⟨?_, ?_, ?_, ?_, ?_, ?_, rfl⟩
  · intro v
    unfold flagLike
    cases h1 : strStartsWith v "-" <;> cases h2 : fullyQuoted '"' v <;>
      cases h3 : fullyQuoted '\'' v <;> simp
  · intro specs tok v rest2 acc argDef h1 h2 h3
    rw [parseTokens]
    simp only [h1, if_true, h2]
    rw [if_neg (by rw [h3]; exact Bool.false_ne_true)]
  · intro specs tok v rest2 acc argDef d h1 h2 h3 h4
    rw [parseTokens]
    simp only [h1, if_true, h2, h3, if_true, h4]
  · intro specs tok v rest2 acc argDef h1 h2 h3 h4
    rw [parseTokens]
    simp only [h1, if_true, h2, h3, if_true, h4]
  · intro specs tok acc argDef d h1 h2 h3
    rw [parseTokens]
    simp only [h1, if_true, h2, h3]
    rw [parseTokens]
  · intro specs tok acc argDef h1 h2 h3
    rw [parseTokens]
    simp only [h1, if_true, h2, h3]

theorem C1_value_vs_flag_witness :
    parseTokens [{ argKey := "b" }] ["--b", "1"] [] =
      parseTokens [{ argKey := "b" }] [] (rinsert [] "b" "1") :=
  C1_value_vs_flag.2.1 [{ argKey := "b" }] "--b" "1" [] [] { argKey := "b" }
    rfl (by decide) (by decide)

/-- C3: after the token loop, every spec not yet present receives its
`defaultValue` when one exists, a required spec without default fails with
the missing-required-argument error, and an optional spec without default is
left out at its own step; a successful run leaves every spec that is
required or has a default present in the result.  The two `[]`-token
examples behave as claimed. -/
theorem C3_defaults_and_required :
    (∀ (specs : List CommandArg) acc res, fillDefaults specs acc = .ok res →
      ∀ a ∈ specs, (a.defaultValue.isSome = true ∨ a.required = true) →
      (rfind res a.argKey).isSome = true)
    ∧ (∀ (a : CommandArg) rest acc d, rfind acc a.argKey = none → a.defaultValue = some d →
        fillDefaults (a :: rest) acc = fillDefaults rest (rinsert acc a.argKey d))
    ∧ (∀ (a : CommandArg) rest acc, rfind acc a.argKey = none → a.defaultValue = none →
        a.required = true →
        fillDefaults (a :: rest) acc = .error ("Missing required argument: --" ++ a.argKey))
    ∧ (∀ (a : CommandArg) rest acc, rfind acc a.argKey = none → a.defaultValue = none →
        a.required = false → fillDefaults (a :: rest) acc = fillDefaults rest acc)
    ∧ parseArgs "" [{ argKey := "id", required := true }] =
        .error "Missing required argument: --id"
    ∧ parseArgs "" [{ argKey := "env", defaultValue := some "prod" }] = .ok [("env", "prod")] := by
  refine ⟨fillDefaults_present, ?_, ?_, ?_, rfl, rfl⟩
  · intro a rest acc d h1 h2
    rw [fillDefaults, if_neg (by rw [h1]; exact Bool.false_ne_true), h2]
  · intro a rest acc h1 h2 h3
    rw [fillDefaults, if_neg (by rw [h1]; exact Bool.false_ne_true), h2, if_pos h3]
  · intro a rest acc h1 h2 h3
    rw [fillDefaults, if_neg (by rw [h1]; exact Bool.false_ne_true), h2,
      if_neg (by rw [h3]; exact Bool.false_ne_true)]

theorem C3_defaults_and_required_witness :
    (rfind [("env", "prod")] "env").isSome = true :=
  C3_defaults_and_required.1 [{ argKey := "env", defaultValue := some "prod" }]
    [] [("env", "prod")] rfl { argKey := "env", defaultValue := some "prod" }
    (by decide) (Or.inl rfl)

/-- C4: a flag token has its leading dashes stripped; the resulting name is
matched case-sensitively by the single `find` predicate — key for a long
flag, alias for a short flag, with an exact key match accepted regardless of
form — and an unmatched flag fails with the unknown-argument error.  The
`["-i", "42"]` alias example resolves to `{id: "42"}`. -/
theorem C4_flag_resolution :
    (∀ specs tok rest acc, strStartsWith tok "-" = true → findSpec specs tok = none →
      parseTokens specs (tok :: rest) acc = .error ("Unknown argument: " ++ tok))
    ∧ (∀ (isLong : Bool) (raw : String) (a : CommandArg), specPred isLong raw a = true ↔
        ((isLong = true ∧ a.argKey = raw) ∨ (isLong = false ∧ a.argKeyAlias = some raw) ∨
          a.argKey = raw))
    ∧ (∀ s : String, (stripDashes s).data = s.data.dropWhile (fun c => c == '-'))
    ∧ findSpec [{ argKey := "id" }] "--Id" = none
    ∧ resolveTokens ["--Id", "1"] [{ argKey := "id" }] = .error "Unknown argument: --Id"
    ∧ parseArgs "-i 42" [{ argKey := "id", argKeyAlias := some "i" }] = .ok [("id", "42")] := by
  refine ⟨?_, ?_, fun s => rfl, rfl, rfl, rfl⟩
  · intro specs tok rest acc h1 h2
    rw [parseTokens]
    simp only [h1, if_true, h2]
  · intro isLong raw a
    unfold specPred
    cases isLong <;> simp [beq_iff_eq]

theorem C4_flag_resolution_witness :
    parseTokens [{ argKey := "id" }] ["--Id", "1"] [] = .error ("Unknown argument: " ++ "--Id") :=
  C4_flag_resolution.1 [{ argKey := "id" }] "--Id" ["1"] [] rfl (by decide)

/-- In a list pairwise related by `r`, the first element satisfying `p` is
related to every satisfying element (or equal to it). -/
lemma find?_first_of_pairwise {α : Type _} {r : α → α → Prop} {p : α → Bool} {a : α} :
    ∀ {l : List α}, l.Pairwise r → l.find? p = some a → ∀ b ∈ l, p b = true → a = b ∨ r a b := by
  intro l
  induction l with
  | nil => intro _ h; cases h
  | cons c t ih =>
    intro hpw hfind b hb hpb
    rw [List.find?_cons] at hfind
    cases hc : p c with
    | true =>
      rw [hc] at hfind
      obtain rfl := Option.some.inj hfind
      rcases List.mem_cons.mp hb with rfl | hb
      · exact Or.inl rfl
      · exact Or.inr ((List.pairwise_cons.mp hpw).1 b hb)
    | false =>
      rw [hc] at hfind
      rcases List.mem_cons.mp hb with rfl | hb
      · rw [hpb] at hc; cases hc
      · exact ih (List.pairwise_cons.mp hpw).2 hfind b hb hpb

/-- C2: `findBestMatch` returns a registered command whose key is a
whitespace-bounded prefix of the input of maximal length among all such
keys, paired with the trimmed remainder, and returns `none` exactly when no
registered key is such a prefix.  `boundaryMatch` is characterized as
"prefix followed by end of input or a space", and the two concrete
longest-prefix / boundary examples behave as claimed. -/
theorem C2_matcher :
    (∀ cmds input, findBestMatch cmds input = none →
      ∀ c ∈ cmds, boundaryMatch c.key input = false)
    ∧ (∀ cmds input c args, findBestMatch cmds input = some (c, args) →
        c ∈ cmds ∧ boundaryMatch c.key input = true ∧
        args = strTrim (strDrop input (strLen c.key)) ∧
        ∀ c' ∈ cmds, boundaryMatch c'.key input = true → c'.key.length ≤ c.key.length)
    ∧ (∀ key input, boundaryMatch key input = true ↔
        ∃ rest, input.data = key.data ++ rest ∧ (rest = [] ∨ ∃ t, rest = ' ' :: t))
    ∧ findBestMatch [trigCmd, trigDepCmd] "trigger deployment --id 1" =
        some (trigDepCmd, "--id 1")
    ∧ findBestMatch [trigShortCmd] "trigger" = none := by
  refine ⟨?_, ?_, ?_, rfl, rfl⟩
  · intro cmds input h c hc
    unfold findBestMatch at h
    cases hfind : (List.insertionSort keyLenGe cmds).find?
        (fun c => boundaryMatch c.key input) with
    | some c0 => rw [hfind] at h; cases h
    | none =>
      have hnone := List.find?_eq_none.mp hfind c ((List.mem_insertionSort keyLenGe).mpr hc)
      exact Bool.eq_false_iff.mpr hnone
  · intro cmds input c args h
    unfold findBestMatch at h
    cases hfind : (List.insertionSort keyLenGe cmds).find?
        (fun c => boundaryMatch c.key input) with
    | none => rw [hfind] at h; cases h
    | some c0 =>
      rw [hfind] at h
      injection h with h1
      injection h1 with h2 h3
      subst h2
      subst h3
      have hp := List.find?_some hfind
      refine ⟨(List.mem_insertionSort keyLenGe).mp (List.mem_of_find?_eq_some hfind),
        hp, rfl, ?_⟩
      intro c' hc' hbc'
      have hpw : (List.insertionSort keyLenGe cmds).Pairwise keyLenGe :=
        List.sorted_insertionSort keyLenGe cmds
      have hrel := find?_first_of_pairwise hpw hfind c'
        ((List.mem_insertionSort keyLenGe).mpr hc') hbc'
      rcases hrel with rfl | hle
      · exact le_refl _
      · exact hle
  · intro key input
    unfold boundaryMatch strStartsWith strDrop strLen
    constructor
    · intro h
      rw [Bool.and_eq_true] at h
      obtain ⟨h1, h2⟩ := h
      obtain ⟨rest, hr⟩ := List.isPrefixOf_iff_prefix.mp h1
      refine ⟨rest, hr.symm, ?_⟩
      have hdrop : input.data.drop key.data.length = rest := by
        rw [← hr]; exact List.drop_left _ _
      rw [hdrop] at h2
      rw [Bool.or_eq_true] at h2
      rcases h2 with h2 | h2
      · left
        rw [beq_iff_eq, mk_eq_empty_iff] at h2
        exact h2
      · right
        obtain ⟨t, ht⟩ := List.isPrefixOf_iff_prefix.mp h2
        exact ⟨t, ht.symm⟩
    · rintro ⟨rest, hr, hcase⟩
      have hdrop : input.data.drop key.data.length = rest := by
        rw [hr]; exact List.drop_left _ _
      rw [Bool.and_eq_true]
      constructor
      · exact List.isPrefixOf_iff_prefix.mpr ⟨rest, hr.symm⟩
      · rw [hdrop, Bool.or_eq_true]
        rcases hcase with rfl | ⟨t, rfl⟩
        · left; rw [beq_iff_eq, mk_eq_empty_iff]
        · right
          exact List.isPrefixOf_iff_prefix.mpr ⟨t, rfl⟩

theorem C2_matcher_witness : trigCmd.key.length ≤ trigDepCmd.key.length :=
  (C2_matcher.2.1 [trigCmd, trigDepCmd] "trigger deployment --id 1" trigDepCmd "--id 1"
    rfl).2.2.2 trigCmd (by decide) (by decide)

/-- The sequential duplicate scan of `register` succeeds exactly when the
checked key/alias sequence (every `argKey` plus every truthy alias) has no
duplicates and avoids the already-seen set. -/
lemma checkArgKeys_ok_iff :
    ∀ (args : List CommandArg) (seen : List String),
      checkArgKeys args seen = .ok () ↔
        ((checkedKeys args).Nodup ∧ ∀ x ∈ checkedKeys args, x ∉ seen) := by
  intro args
  induction args with
  | nil =>
    intro seen
    simp [checkArgKeys, checkedKeys]
  | cons a rest ih =>
    intro seen
    have hcomb : checkedKeys (a :: rest) =
        a.argKey :: ((match a.argKeyAlias with
          | some al => if al == "" then [] else [al]
          | none => []) ++ checkedKeys rest) := by
      simp [checkedKeys]
    rw [checkArgKeys, hcomb]
    by_cases h1 : seen.contains a.argKey
    · rw [if_pos h1]
      have hmem : a.argKey ∈ seen := by simpa using h1
      constructor
      · intro h; cases h
      · rintro ⟨_, hdis⟩
        exact absurd hmem (hdis a.argKey (List.mem_cons_self _ _))
    · rw [if_neg h1]
      have hmem1 : a.argKey ∉ seen := by simpa using h1
      have hstep1 : checkArgKeys rest (a.argKey :: seen) = .ok () ↔
          ((a.argKey :: checkedKeys rest).Nodup ∧
            ∀ x ∈ a.argKey :: checkedKeys rest, x ∉ seen) := by
        rw [ih]
        constructor
        · rintro ⟨hnd, hall⟩
          refine ⟨List.nodup_cons.mpr ⟨fun hm => (hall _ hm) (List.mem_cons_self _ _), hnd⟩, ?_⟩
          intro x hx
          rcases List.mem_cons.mp hx with rfl | hm
          · exact hmem1
          · exact fun hxs => hall x hm (List.mem_cons_of_mem _ hxs)
        · rintro ⟨hndc, hallc⟩
          refine ⟨(List.nodup_cons.mp hndc).2, ?_⟩
          intro x hm hxc
          rcases List.mem_cons.mp hxc with rfl | hxs
          · exact (List.nodup_cons.mp hndc).1 hm
          · exact hallc x (List.mem_cons_of_mem _ hm) hxs
      cases hal : a.argKeyAlias with
      | none =>
        simp only [List.nil_append]
        exact hstep1
      | some al =>
        dsimp only
        by_cases hempty : al == ""
        · rw [if_pos hempty, if_pos hempty]
          simp only [List.nil_append]
          exact hstep1
        · rw [if_neg hempty, if_neg hempty]
          simp only [List.cons_append, List.singleton_append]
          by_cases h2 : (a.argKey :: seen).contains al
          · rw [if_pos h2]
            have hmem2 : al ∈ a.argKey :: seen := by simpa using h2
            constructor
            · intro h; cases h
            · rintro ⟨hnd, hdis⟩
              rcases List.mem_cons.mp hmem2 with heq | hin
              · exact ((List.nodup_cons.mp hnd).1 (heq ▸ List.mem_cons_self _ _)).elim
              · exact (hdis al (List.mem_cons_of_mem _ (List.mem_cons_self _ _)) hin).elim
          · rw [if_neg h2]
            have hmem2 : al ∉ a.argKey :: seen := by simpa using h2
            have halk : al ≠ a.argKey := fun h => hmem2 (h ▸ List.mem_cons_self _ _)
            have hals : al ∉ seen := fun h => hmem2 (List.mem_cons_of_mem _ h)
            rw [ih]
            constructor
            · rintro ⟨hnd, hall⟩
              refine ⟨?_, ?_⟩
              · refine List.nodup_cons.mpr ⟨?_, List.nodup_cons.mpr ⟨?_, hnd⟩⟩
                · intro hm
                  rcases List.mem_cons.mp hm with heq | hm
                  · exact halk heq.symm
                  · exact hall a.argKey hm
                      (List.mem_cons_of_mem _ (List.mem_cons_self _ _))
                · intro hm
                  exact hall al hm (List.mem_cons_self _ _)
              · intro x hx
                rcases List.mem_cons.mp hx with rfl | hx
                · exact hmem1
                · rcases List.mem_cons.mp hx with rfl | hm
                  · exact hals
                  · exact fun hxs => hall x hm
                      (List.mem_cons_of_mem _ (List.mem_cons_of_mem _ hxs))
            · rintro ⟨hndc, hallc⟩
              have hnd1 := List.nodup_cons.mp hndc
              have hnd2 := List.nodup_cons.mp hnd1.2
              refine ⟨hnd2.2, ?_⟩
              intro x hm hxm
              rcases List.mem_cons.mp hxm with rfl | hxm
              · exact hnd2.1 hm
              · rcases List.mem_cons.mp hxm with rfl | hxs
                · exact hnd1.1 (List.mem_cons_of_mem _ hm)
                · exact hallc x (List.mem_cons_of_mem _ (List.mem_cons_of_mem _ hm)) hxs

/-- C6 counterexample: both arguments of `emptyAliasCmd` carry the
empty-string alias, so the combined sequence of all argKey and argKeyAlias
strings contains a duplicate and the claim asserts `register` throws before
any store write; the source's truthiness guard `if (arg.argKeyAlias)` skips
falsy aliases, so the program instead upserts the definition. -/
theorem C6_counterexample :
    ¬ (combinedKeys emptyAliasCmd.args).Nodup
    ∧ register [] emptyAliasCmd = .ok [emptyAliasCmd] := ⟨by decide, rfl⟩

/-- C6 (amended): a definition with a duplicate among the checked keys —
every argKey together with every truthy (present and non-empty) argKeyAlias
— is rejected by `register` with a duplicate key/alias error and no store
write; empty-string aliases are skipped by the truthiness guard and never
participate.  A definition with no such duplicate (`emptyAliasCmd`'s
colliding empty aliases included) is upserted into the store keyed by its
command key (insert-or-replace, not append). -/
theorem C6_register :
    (∀ store cmd, ¬ (checkedKeys cmd.args).Nodup → ∃ e, register store cmd = .error e)
    ∧ (∀ store cmd, (checkedKeys cmd.args).Nodup →
        register store cmd = .ok ((store.filter (fun c => !(c.key == cmd.key))) ++ [cmd]))
    ∧ register [] dupKeyCmd = .error "Duplicate arg key: x"
    ∧ register [] dupAliasCmd = .error "Duplicate arg alias: x"
    ∧ register [] emptyAliasCmd = .ok [emptyAliasCmd]
    ∧ register [trigCmd] trigNewCmd = .ok [trigNewCmd] := by
  have hkey : ∀ args, checkArgKeys args [] = .ok () ↔ (checkedKeys args).Nodup := by
    intro args
    rw [checkArgKeys_ok_iff]
    simp
  refine ⟨?_, ?_, rfl, rfl, rfl, rfl⟩
  · intro store cmd hdup
    unfold register
    cases hc : checkArgKeys cmd.args [] with
    | error e => exact ⟨e, rfl⟩
    | ok u =>
      cases u
      exact absurd ((hkey cmd.args).mp hc) hdup
  · intro store cmd hnd
    unfold register
    rw [(hkey cmd.args).mpr hnd]
    rfl

theorem C6_register_witness :
    register [] trigCmd =
      .ok (([] : List CommandDef).filter (fun c => !(c.key == trigCmd.key)) ++ [trigCmd]) :=
  C6_register.2.1 [] trigCmd (by decide)

/-- The marker search returns `none` exactly when the input contains neither
`--` nor `[`. -/
lemma searchMarkerAux_none_iff :
    ∀ (cs : List Char) (i : Nat),
      searchMarkerAux cs i = none ↔ (¬ ['-', '-'] <:+: cs ∧ '[' ∉ cs) := by
  intro cs i
  induction cs, i using searchMarkerAux.induct with
  | case1 i => simp [searchMarkerAux]
  | case2 tail i =>
    rw [searchMarkerAux]
    constructor
    · intro h; cases h
    · rintro ⟨h1, _⟩
      exact (h1 (List.IsPrefix.isInfix ⟨tail, rfl⟩)).elim
  | case3 tail i =>
    rw [searchMarkerAux]
    constructor
    · intro h; cases h
    · rintro ⟨_, h2⟩
      exact (h2 (List.mem_cons_self _ _)).elim
  | case4 head rest i hnd hnb ih =>
    have hunf : searchMarkerAux (head :: rest) i = searchMarkerAux rest (i + 1) := by
      rw [searchMarkerAux.eq_def]
      split
      · rename_i heq
        simp at heq
      · rename_i heq
        injection heq with e1 e2
        exact (hnd _ e1 e2).elim
      · rename_i heq
        injection heq with e1 _
        exact (hnb e1).elim
      · rename_i heq
        injection heq with _ e2
        rw [e2]
    rw [hunf, ih, List.infix_cons_iff, List.mem_cons]
    have hpre : ¬ (['-', '-'] <+: head :: rest) := by
      rintro ⟨t, ht⟩
      injection ht with e1 e2
      exact hnd t e1.symm e2.symm
    constructor
    · rintro ⟨hi, hm⟩
      exact ⟨fun h => h.elim hpre hi, fun h => h.elim (fun e => hnb e.symm) hm⟩
    · rintro ⟨hi, hm⟩
      exact ⟨fun h => hi (Or.inr h), fun h => hm (Or.inr h)⟩

lemma searchMarker_none_iff (s : String) :
    searchMarker s = none ↔ (¬ ['-', '-'] <:+: s.data ∧ '[' ∉ s.data) :=
  searchMarkerAux_none_iff s.data 0

/-- C8: registration parsing fails with the missing-definition error when
the input contains neither `--` nor `[`, with the missing-command-key error
when the trimmed prefix before the first marker is empty, and with the
missing-urlCall error when no (non-empty) urlCall value is extracted; in
every case an error is returned, so nothing reaches the store through the
chat path. -/
theorem C8_registration_failures :
    (∀ input : String, searchMarker input = none ↔
      (¬ ['-', '-'] <:+: input.data ∧ '[' ∉ input.data))
    ∧ (∀ input, searchMarker input = none →
        parseRegistrationInput input =
          .error "Missing description, urlCall or args definition.")
    ∧ (∀ input i, searchMarker input = some i → strTrim (strTake input i) = "" →
        parseRegistrationInput input = .error "Missing command key.")
    ∧ (∀ input i, searchMarker input = some i → ¬ strTrim (strTake input i) = "" →
        (extractFlag "urlCall" (strDrop input i) = none ∨
          extractFlag "urlCall" (strDrop input i) = some "") →
        parseRegistrationInput input = .error "Missing --urlCall")
    ∧ (∀ store input e, parseRegistrationInput input = .error e →
        chatRegisterPath store input = .error e) := by
  refine ⟨searchMarker_none_iff, ?_, ?_, ?_, ?_⟩
  · intro input h
    unfold parseRegistrationInput
    rw [h]
  · intro input i h1 h2
    unfold parseRegistrationInput
    rw [h1]
    simp only [h2, beq_self_eq_true, if_true]
  · intro input i h1 h2 h3
    unfold parseRegistrationInput
    rw [h1]
    have hne : (strTrim (strTake input i) == "") = false := beq_eq_false_iff_ne.mpr h2
    simp only [hne, Bool.false_eq_true, if_false]
    rcases h3 with h3 | h3
    · rw [h3]
    · rw [h3]
      simp only [beq_self_eq_true, if_true]
  · intro store input e h
    unfold chatRegisterPath
    rw [h]
    rfl

theorem C8_registration_failures_witness :
    parseRegistrationInput "--urlCall x" = .error "Missing command key."
    ∧ parseRegistrationInput "foo --description d" = .error "Missing --urlCall"
    ∧ parseRegistrationInput "hello" =
        .error "Missing description, urlCall or args definition." :=
  ⟨C8_registration_failures.2.2.1 "--urlCall x" 0 rfl rfl,
   C8_registration_failures.2.2.2.1 "foo --description d" 4 rfl (by decide) (Or.inl rfl),
   C8_registration_failures.2.1 "hello" rfl⟩

/-- C5 counterexample: the chat entry point accepts the registration text
`"foo --urlCall notaurl"` — whose urlCall is not a syntactically valid
absolute URL (no scheme) — and writes the definition to the store, so the
two entry points do not reject invalid URLs identically. -/
theorem C5_counterexample :
    chatRegisterPath [] "foo --urlCall notaurl" =
      .ok [{ key := "foo", urlCall := "notaurl" }]
    ∧ isValidAbsoluteUrl "notaurl" = false := ⟨rfl, rfl⟩

/-- C5 (amended): only the structured form entry point enforces URL
validity: `RegisterCommandSchema` accepts a command only when its urlCall is
a syntactically valid absolute URL and a schema failure reaches no store
write, while the free-text chat entry point performs no urlCall syntax
validation and upserts a definition with an invalid urlCall into the
store. -/
theorem C5_url_validation :
    (∀ cmd c, registerCommandSchemaParse cmd = .ok c → isValidAbsoluteUrl cmd.urlCall = true)
    ∧ (∀ store cmd e, registerCommandSchemaParse cmd = .error e →
        formSavePath store cmd = .error e)
    ∧ chatRegisterPath [] "foo --urlCall notaurl" =
        .ok [{ key := "foo", urlCall := "notaurl" }]
    ∧ isValidAbsoluteUrl "notaurl" = false := by
  refine ⟨?_, ?_, rfl, rfl⟩
  · intro cmd c h
    unfold registerCommandSchemaParse at h
    by_cases h1 : cmd.key == ""
    · rw [if_pos h1] at h; cases h
    · rw [if_neg h1] at h
      by_cases h2 : isValidAbsoluteUrl cmd.urlCall
      · exact h2
      · rw [if_neg h2] at h; cases h
  · intro store cmd e h
    unfold formSavePath
    rw [h]
    rfl

theorem C5_url_validation_witness :
    isValidAbsoluteUrl (CommandDef.urlCall trigCmd) = true :=
  C5_url_validation.1 trigCmd trigCmd rfl

/-- C9: the documented registration text round-trips into the expected
`CommandDefinition`: key `"trigger deployment"`, description
`"Deploy now"`, urlCall `"https://x.test/h"`, and exactly one argument spec
`{argKey := "id", required := true}`. -/
theorem C9_registration_round_trip :
    parseRegistrationInput
        "trigger deployment --description Deploy now --urlCall https://x.test/h [--argKey: id --required: true]" =
      .ok { key := "trigger deployment", description := some "Deploy now",
            urlCall := "https://x.test/h",
            args := [{ argKey := "id", required := true }] } := rfl

end Tra
